import Mathlib

/-
Verification of the packet-assembly pipeline of the PDF-PACKET worker
(worker/src/index.ts).  The worker receives a `ProjectData` record and an
ordered list of `DocumentRequest` entries, builds one composite PDF (cover
page, then per document a divider page followed by the document's copied
pages or substituted error pages), numbers every page, and returns the
bytes with a filename derived from the project name.

The embedding below models every external effect (network fetch, PDF
parsing, per-page copy success) as an explicit oracle, and models a page
of the composite document as its structured content plus the list of texts
drawn at the fixed footer position by the numbering pass.
-/

namespace PDFPacket

/-- Status checkbox flags of the project data (`ProjectData.status` in
worker/src/index.ts). -/
structure StatusFlags where
  forReview : Bool
  forApproval : Bool
  forRecord : Bool
  forInformationOnly : Bool
deriving DecidableEq

/-- Submittal-type checkbox flags of the project data
(`ProjectData.submittalType` in worker/src/index.ts). -/
structure SubmittalTypeFlags where
  tds : Bool
  threePartSpecs : Bool
  testReportIccEsr5194 : Bool
  testReportIccEsl1645 : Bool
  fireAssembly : Bool
  fireAssembly01 : Bool
  fireAssembly02 : Bool
  fireAssembly03 : Bool
  msds : Bool
  leedGuide : Bool
  installationGuide : Bool
  warranty : Bool
  samples : Bool
  other : Bool
  otherText : Option String
deriving DecidableEq

/-- Project metadata supplied by the caller (`ProjectData` in
worker/src/index.ts). -/
structure ProjectData where
  projectName : String
  submittedTo : String
  preparedBy : String
  date : String
  projectNumber : Option String
  emailAddress : String
  phoneNumber : String
  product : String
  status : StatusFlags
  submittalType : SubmittalTypeFlags
deriving DecidableEq

/-- One document reference of the ordered input list (`DocumentRequest` in
worker/src/index.ts). -/
structure DocumentRequest where
  id : String
  name : String
  url : String
  type : String
deriving DecidableEq

/-- Structured content of one page of the composite document.  A divider
page records the `currentPageNumber` value it was created with (the
`Page ${pageNumber}` caption drawn by `addDividerPage`); an error page
records the document name and the error message passed to `addErrorPage`
(rendered as `Error: ${errorMessage}`); a content page records which
source document and which source page index it was copied from. -/
inductive PageKind where
  | cover
  | divider (documentName documentType : String) (caption : Nat)
  | content (documentName : String) (sourceIndex : Nat)
  | error (documentName errorMessage : String)
deriving DecidableEq

/-- One page of the composite document: its structured content plus the
texts drawn at the fixed footer position (`x = width - 50`, `y = 30`) by
`addPageNumbers`, in drawing order.  Later draws at that fixed position
overprint earlier ones, so the number visible there is the last entry. -/
structure Page where
  kind : PageKind
  footer : List String
deriving DecidableEq

/-- The page appended by `addCoverPage` (worker/src/index.ts:193).  Its
drawn form fields are not inspected by any claim; what matters is that it
contributes exactly one page with no footer text yet. -/
def addCoverPage (_pd : ProjectData) : Page :=
  { kind := PageKind.cover, footer := [] }

/-- The page appended by `addDividerPage` (worker/src/index.ts:472): it
draws the document name, its type, and the caption `Page ${pageNumber}`
from the page number it is handed at creation time. -/
def addDividerPage (documentName documentType : String) (pageNumber : Nat) : Page :=
  { kind := PageKind.divider documentName documentType pageNumber, footer := [] }

/-- The page appended by `addErrorPage` (worker/src/index.ts:517): it
draws the failing document's name and `Error: ${errorMessage}`. -/
def addErrorPage (documentName errorMessage : String) : Page :=
  { kind := PageKind.error documentName errorMessage, footer := [] }

/-- Outcome of the external world for one document of the request:
`fetchFail` means `fetchPDF` returned `null`; `parseFail` means bytes were
returned but `PDFDocument.load` (or reading its page list) threw, which
the per-document `catch` absorbs; `loaded copyFails` means the source
document loaded with `copyFails.length` pages, where entry `i` is `true`
exactly when `copyPages` throws for source page index `i`. -/
inductive DocOutcome where
  | fetchFail
  | parseFail
  | loaded (copyFails : List Bool)
deriving DecidableEq

/-- The per-page copy loop of the handler (worker/src/index.ts:97-108):
for each source page index `i` in order, append the copied page, or on a
copy failure append one error page whose message names position `i + 1`,
and continue with the next page. -/
def copyLoop (documentName : String) : Nat → List Bool → List Page
  | _, [] => []
  | i, fail :: rest =>
    (if fail then
      addErrorPage documentName ("Page " ++ toString (i + 1) ++ " could not be processed")
    else
      { kind := PageKind.content documentName i, footer := [] })
      :: copyLoop documentName (i + 1) rest

/-- The pages one document contributes after its divider
(worker/src/index.ts:91-120): one `Document could not be loaded` error
page when the fetch returned `null`, one `Document processing failed`
error page when loading the fetched bytes threw (absorbed by the
per-document `catch`), and the copy loop's pages when the source loaded. -/
def processDoc (doc : DocumentRequest) (outcome : DocOutcome) : List Page :=
  match outcome with
  | DocOutcome.fetchFail => [addErrorPage doc.name "Document could not be loaded"]
  | DocOutcome.parseFail => [addErrorPage doc.name "Document processing failed"]
  | DocOutcome.loaded copyFails => copyLoop doc.name 0 copyFails

/-- The per-document loop of the handler (worker/src/index.ts:82-121),
threading `currentPageNumber`: each document gets a divider page created
with the current counter value, then its contributed pages; the counter
advances by one for every page appended. -/
def processDocuments : List (DocumentRequest × DocOutcome) → Nat → List Page
  | [], _ => []
  | (doc, outcome) :: rest, currentPageNumber =>
    addDividerPage doc.name doc.type currentPageNumber
      :: (processDoc doc outcome
        ++ processDocuments rest (currentPageNumber + 1 + (processDoc doc outcome).length))

/-- One drawing step of `addPageNumbers`: draw the decimal text of `n` at
the fixed footer position of this page. -/
def drawPageNumber (pg : Page) (n : Nat) : Page :=
  { pg with footer := pg.footer ++ [toString n] }

/-- The numbering recursion underlying `addPageNumbers`
(worker/src/index.ts:560-576): page at offset `i` from the start of the
traversal receives the number `n + i`. -/
def numberFrom : Nat → List Page → List Page
  | _, [] => []
  | n, pg :: rest => drawPageNumber pg n :: numberFrom (n + 1) rest

/-- `addPageNumbers` (worker/src/index.ts:560): draw on every page of the
composite document the text of its 1-based position. -/
def addPageNumbers (pages : List Page) : List Page :=
  numberFrom 1 pages

/-- The whole assembly pipeline of the request handler
(worker/src/index.ts:74-124): create the composite document, append the
cover page, process every document in input order starting the counter at
2, then run the numbering pass once. -/
def generatePacket (pd : ProjectData) (docs : List (DocumentRequest × DocOutcome)) : List Page :=
  addPageNumbers (addCoverPage pd :: processDocuments docs 2)

/-- The number visible at a page's fixed footer position: the last text
drawn there (later draws at the same absolute position overprint). -/
def renderedFooter (pg : Page) : Option String :=
  pg.footer.getLast?

/-- Pages a document contributes beside its divider, as a function of its
outcome: one error page on a fetch or parse failure, one page per source
page when loaded. -/
def pagesContributed : DocOutcome → Nat
  | DocOutcome.fetchFail => 1
  | DocOutcome.parseFail => 1
  | DocOutcome.loaded copyFails => copyFails.length

/-- Page content with the divider caption and the footer texts erased:
what remains determines only the kind and identity of each page, which is
what ordering statements are about. -/
inductive PageTag where
  | cover
  | divider (documentName documentType : String)
  | content (documentName : String) (sourceIndex : Nat)
  | error (documentName errorMessage : String)
deriving DecidableEq

/-- Erase the divider caption and the footer of a page. -/
def tagOf (pg : Page) : PageTag :=
  match pg.kind with
  | PageKind.cover => PageTag.cover
  | PageKind.divider a b _ => PageTag.divider a b
  | PageKind.content a i => PageTag.content a i
  | PageKind.error a m => PageTag.error a m

/-- Result of one network retrieval as seen by `fetchPDF`: either a
response with a status code and body bytes, or a thrown failure (covering
thrown transport errors and a throwing body read, both caught by the
`try` around the whole of `fetchPDF`). -/
inductive NetResult where
  | response (status : Nat) (body : List Nat)
  | thrown (message : String)
deriving DecidableEq

/-- The fixed content origin that relative retrieval addresses resolve
against (worker/src/index.ts:167). -/
def contentOrigin : String :=
  "https://raw.githubusercontent.com/karthikeyanasha24/pdf-packet-4/main/public/"

/-- Characters that JavaScript `encodeURIComponent` leaves unescaped:
ASCII alphanumerics and `- _ . ! ~ * ' ( )`. -/
def jsUnreserved (c : Char) : Bool :=
  c.isAlphanum || c = '-' || c = '_' || c = '.' || c = '!' || c = '~' ||
    c = '*' || c = Char.ofNat 39 || c = '(' || c = ')'

/-- Uppercase hexadecimal digit character, as `encodeURIComponent`
emits. -/
def hexDigitChar (n : Nat) : Char :=
  if n < 10 then Char.ofNat (48 + n) else Char.ofNat (55 + n)

/-- Percent-escape of one byte: `%` followed by two uppercase hex
digits. -/
def percentByte (b : Nat) : List Char :=
  ['%', hexDigitChar (b / 16), hexDigitChar (b % 16)]

/-- UTF-8 encoding of one Unicode scalar value, as `encodeURIComponent`
escapes non-ASCII characters byte by byte. -/
def utf8Bytes (c : Char) : List Nat :=
  let n := c.toNat
  if n < 128 then [n]
  else if n < 2048 then [192 + n / 64, 128 + n % 64]
  else if n < 65536 then [224 + n / 4096, 128 + n / 64 % 64, 128 + n % 64]
  else [240 + n / 262144, 128 + n / 4096 % 64, 128 + n / 64 % 64, 128 + n % 64]

/-- `encodeURIComponent` on one character: kept verbatim when unreserved,
otherwise every UTF-8 byte percent-escaped. -/
def encodeChar (c : Char) : List Char :=
  if jsUnreserved c then [c] else (utf8Bytes c).flatMap percentByte

/-- JavaScript `encodeURIComponent`, character by character, on a list of
characters. -/
def encodeURIComponentList (s : List Char) : List Char :=
  s.flatMap encodeChar

/-- JavaScript `encodeURIComponent` on a string. -/
def encodeURIComponent (s : String) : String :=
  String.mk (encodeURIComponentList s.toList)

/-- The global replacement `.replace(/%2F/g, '/')` of
worker/src/index.ts:166: scan left to right, replacing each
non-overlapping occurrence of `%2F` by `/`. -/
def replacePercent2F : List Char → List Char
  | '%' :: '2' :: 'F' :: rest => '/' :: replacePercent2F rest
  | c :: rest => c :: replacePercent2F rest
  | [] => []

/-- URL resolution of `fetchPDF` (worker/src/index.ts:160-168): an
address beginning with `http` is used verbatim; otherwise a leading `/`
is stripped, the path is passed through `encodeURIComponent`, escaped
slashes are restored, and the result is appended to the fixed content
origin. -/
def resolveUrl (url : String) : String :=
  if url.startsWith "http" then url
  else
    let cleanPath := if url.startsWith "/" then url.drop 1 else url
    let encodedPath := String.mk (replacePercent2F (encodeURIComponentList cleanPath.toList))
    contentOrigin ++ encodedPath

/-- Whether a response status is a success in the sense of JavaScript
`Response.ok`: status in the range 200 to 299. -/
def responseOk (status : Nat) : Bool :=
  200 ≤ status && status ≤ 299

/-- `fetchPDF` (worker/src/index.ts:158-191) against a network oracle
`net` mapping each resolved address to its outcome: a thrown failure or a
non-success status yields `none` (the code's `null`); a success status
yields the body bytes.  The `try` wraps the whole body, so the function
is total: it never propagates a failure to its caller. -/
def fetchPDF (net : String → NetResult) (url : String) : Option (List Nat) :=
  match net (resolveUrl url) with
  | NetResult.thrown _ => none
  | NetResult.response status body =>
    if responseOk status then some body else none

/-- Split a list of characters into the segments between `/`
separators. -/
def splitOnSlash : List Char → List (List Char)
  | [] => [[]]
  | c :: rest =>
    if c = '/' then [] :: splitOnSlash rest
    else
      match splitOnSlash rest with
      | [] => [[c]]
      | seg :: segs => (c :: seg) :: segs

/-- Join segments back with `/` separators. -/
def joinSlash : List (List Char) → List Char
  | [] => []
  | [seg] => seg
  | seg :: segs => seg ++ '/' :: joinSlash segs

/-- Modelled from the spec: URL resolution as §4.1 words it — an address
that is already fully qualified is used verbatim; otherwise the leading
separator is removed and each path segment is percent-encoded
individually, preserving `/` separators, then appended to the fixed
content origin. -/
def specResolveUrl (url : String) : String :=
  if url.startsWith "http" then url
  else
    let cleanPath := if url.startsWith "/" then url.drop 1 else url
    contentOrigin ++
      String.mk (joinSlash ((splitOnSlash cleanPath.toList).map encodeURIComponentList))

/-- The attachment filename built by the handler (worker/src/index.ts:135):
each character of the project name that is not an ASCII alphanumeric is
replaced one-for-one with `_` (the `/[^a-zA-Z0-9]/g` replacement), then
`_Packet.pdf` is appended. -/
def packetFilename (projectName : String) : String :=
  String.mk (projectName.toList.map (fun c => if c.isAlphanum then c else '_')) ++ "_Packet.pdf"

lemma copyLoop_length (documentName : String) (fails : List Bool) :
    ∀ i, (copyLoop documentName i fails).length = fails.length := by
  induction fails with
  | nil => intro i; rfl
  | cons f rest ih => intro i; simp only [copyLoop, List.length_cons, ih]

lemma processDoc_length (doc : DocumentRequest) (outcome : DocOutcome) :
    (processDoc doc outcome).length = pagesContributed outcome := by
  cases outcome with
  | fetchFail => rfl
  | parseFail => rfl
  | loaded fails => exact copyLoop_length doc.name fails 0

lemma processDocuments_length (docs : List (DocumentRequest × DocOutcome)) :
    ∀ n, (processDocuments docs n).length
      = (docs.map (fun p => 1 + pagesContributed p.2)).sum := by
  induction docs with
  | nil => intro n; rfl
  | cons p rest ih =>
    intro n
    obtain ⟨doc, outcome⟩ := p
    simp only [processDocuments, List.length_cons, List.length_append,
      processDoc_length, List.map_cons, List.sum_cons, ih]
    omega

lemma numberFrom_length (ps : List Page) : ∀ n, (numberFrom n ps).length = ps.length := by
  induction ps with
  | nil => intro n; rfl
  | cons p rest ih => intro n; simp only [numberFrom, List.length_cons, ih]

lemma copyLoop_footer (documentName : String) (fails : List Bool) :
    ∀ i, ∀ p ∈ copyLoop documentName i fails, p.footer = [] := by
  induction fails with
  | nil => intro i p hp; simp [copyLoop] at hp
  | cons f rest ih =>
    intro i p hp
    rcases List.mem_cons.mp hp with rfl | hmem
    · cases f <;> simp [addErrorPage]
    · exact ih (i + 1) p hmem

lemma processDoc_footer (doc : DocumentRequest) (outcome : DocOutcome) :
    ∀ p ∈ processDoc doc outcome, p.footer = [] := by
  cases outcome with
  | fetchFail =>
    intro p hp
    rcases List.mem_cons.mp hp with rfl | h
    · rfl
    · simp at h
  | parseFail =>
    intro p hp
    rcases List.mem_cons.mp hp with rfl | h
    · rfl
    · simp at h
  | loaded fails => exact copyLoop_footer doc.name fails 0

lemma processDocuments_footer (docs : List (DocumentRequest × DocOutcome)) :
    ∀ n, ∀ p ∈ processDocuments docs n, p.footer = [] := by
  induction docs with
  | nil => intro n p hp; simp [processDocuments] at hp
  | cons q rest ih =>
    intro n p hp
    obtain ⟨doc, outcome⟩ := q
    rcases List.mem_cons.mp hp with rfl | hmem
    · rfl
    · rcases List.mem_append.mp hmem with h | h
      · exact processDoc_footer doc outcome p h
      · exact ih _ p h

lemma numberFrom_getElem? (ps : List Page) :
    ∀ n i, (numberFrom n ps)[i]? = (ps[i]?).map (fun pg => drawPageNumber pg (n + i)) := by
  induction ps with
  | nil => intro n i; rfl
  | cons p rest ih =>
    intro n i
    cases i with
    | zero => simp [numberFrom]
    | succ i =>
      have harith : n + 1 + i = n + (i + 1) := by omega
      simp only [numberFrom, List.getElem?_cons_succ, ih (n + 1) i, harith]

lemma numberFrom_map_footer (ps : List Page) (n : Nat) (hps : ∀ p ∈ ps, p.footer = []) :
    (numberFrom n ps).map Page.footer
      = (List.range ps.length).map (fun i => [toString (n + i)]) := by
  apply List.ext_getElem?
  intro i
  by_cases h : i < ps.length
  · have h1 : ps[i]? = some ps[i] := List.getElem?_eq_getElem h
    have h2 : (List.range ps.length)[i]? = some i := List.getElem?_range h
    have hfoot : ps[i].footer = [] := hps _ (List.getElem_mem h)
    simp [List.getElem?_map, numberFrom_getElem?, h1, h2, drawPageNumber, hfoot]
  · have h1 : ps[i]? = none := List.getElem?_eq_none (by omega)
    have h2 : (List.range ps.length)[i]? = none :=
      List.getElem?_eq_none (by simp only [List.length_range]; omega)
    simp [List.getElem?_map, numberFrom_getElem?, h1, h2]

lemma numberFrom_map_renderedFooter (ps : List Page) (n : Nat) :
    (numberFrom n ps).map renderedFooter
      = (List.range ps.length).map (fun i => some (toString (n + i))) := by
  apply List.ext_getElem?
  intro i
  by_cases h : i < ps.length
  · have h1 : ps[i]? = some ps[i] := List.getElem?_eq_getElem h
    have h2 : (List.range ps.length)[i]? = some i := List.getElem?_range h
    simp [List.getElem?_map, numberFrom_getElem?, h1, h2, drawPageNumber,
      renderedFooter, List.getLast?_concat]
  · have h1 : ps[i]? = none := List.getElem?_eq_none (by omega)
    have h2 : (List.range ps.length)[i]? = none :=
      List.getElem?_eq_none (by simp only [List.length_range]; omega)
    simp [List.getElem?_map, numberFrom_getElem?, h1, h2]

lemma tagOf_drawPageNumber (pg : Page) (n : Nat) : tagOf (drawPageNumber pg n) = tagOf pg := by
  cases pg
  rfl

lemma numberFrom_map_tagOf (ps : List Page) :
    ∀ n, (numberFrom n ps).map tagOf = ps.map tagOf := by
  induction ps with
  | nil => intro n; rfl
  | cons p rest ih =>
    intro n
    simp only [numberFrom, List.map_cons, tagOf_drawPageNumber, ih (n + 1)]

lemma processDocuments_map_tagOf (docs : List (DocumentRequest × DocOutcome)) :
    ∀ n, (processDocuments docs n).map tagOf
      = (docs.map (fun p => PageTag.divider p.1.name p.1.type
          :: (processDoc p.1 p.2).map tagOf)).flatten := by
  induction docs with
  | nil => intro n; rfl
  | cons q rest ih =>
    intro n
    obtain ⟨doc, outcome⟩ := q
    simp only [processDocuments, List.map_cons, List.map_append, List.flatten_cons,
      ih, addDividerPage, tagOf, List.cons_append]

/-- Invariant relating divider captions to positions: within a page list
whose first page sits at overall page number `n`, every divider page's
caption equals `n` plus its offset in the list. -/
def DividerCaptionsOk (n : Nat) (ps : List Page) : Prop :=
  ∀ i pg a b cap, ps[i]? = some pg → pg.kind = PageKind.divider a b cap → cap = n + i

lemma dividerCaptionsOk_nil (n : Nat) : DividerCaptionsOk n [] := by
  intro i pg a b cap h
  simp at h

lemma dividerCaptionsOk_cons (n : Nat) (x : Page) (ps : List Page)
    (hx : ∀ a b cap, x.kind = PageKind.divider a b cap → cap = n)
    (hps : DividerCaptionsOk (n + 1) ps) : DividerCaptionsOk n (x :: ps) := by
  intro i pg a b cap hget hkind
  cases i with
  | zero =>
    simp only [List.getElem?_cons_zero, Option.some.injEq] at hget
    subst hget
    simpa using hx a b cap hkind
  | succ i =>
    simp only [List.getElem?_cons_succ] at hget
    have := hps i pg a b cap hget hkind
    omega

lemma dividerCaptionsOk_append (n : Nat) (ps qs : List Page)
    (h1 : DividerCaptionsOk n ps)
    (h2 : DividerCaptionsOk (n + ps.length) qs) : DividerCaptionsOk n (ps ++ qs) := by
  intro i pg a b cap hget hkind
  rw [List.getElem?_append] at hget
  by_cases h : i < ps.length
  · rw [if_pos h] at hget
    exact h1 i pg a b cap hget hkind
  · rw [if_neg h] at hget
    have := h2 (i - ps.length) pg a b cap hget hkind
    omega

lemma dividerCaptionsOk_of_no_divider (n : Nat) (ps : List Page)
    (h : ∀ p ∈ ps, ∀ a b cap, p.kind ≠ PageKind.divider a b cap) :
    DividerCaptionsOk n ps := by
  intro i pg a b cap hget hkind
  have hmem : pg ∈ ps := by
    have hi : i < ps.length := by
      by_contra hcon
      rw [List.getElem?_eq_none (by omega)] at hget
      exact Option.noConfusion hget
    rw [List.getElem?_eq_getElem hi] at hget
    rw [← Option.some.injEq _ _ |>.mp hget]
    exact List.getElem_mem hi
  exact absurd hkind (h pg hmem a b cap)

lemma copyLoop_no_divider (documentName : String) (fails : List Bool) :
    ∀ i, ∀ p ∈ copyLoop documentName i fails,
      ∀ a b cap, p.kind ≠ PageKind.divider a b cap := by
  induction fails with
  | nil => intro i p hp; simp [copyLoop] at hp
  | cons f rest ih =>
    intro i p hp
    rcases List.mem_cons.mp hp with rfl | hmem
    · cases f <;> simp [addErrorPage]
    · exact ih (i + 1) p hmem

lemma processDoc_no_divider (doc : DocumentRequest) (outcome : DocOutcome) :
    ∀ p ∈ processDoc doc outcome, ∀ a b cap, p.kind ≠ PageKind.divider a b cap := by
  cases outcome with
  | fetchFail =>
    intro p hp
    rcases List.mem_cons.mp hp with rfl | h
    · simp [addErrorPage]
    · simp at h
  | parseFail =>
    intro p hp
    rcases List.mem_cons.mp hp with rfl | h
    · simp [addErrorPage]
    · simp at h
  | loaded fails => exact copyLoop_no_divider doc.name fails 0

lemma processDocuments_captions (docs : List (DocumentRequest × DocOutcome)) :
    ∀ n, DividerCaptionsOk n (processDocuments docs n) := by
  induction docs with
  | nil => intro n; exact dividerCaptionsOk_nil n
  | cons q rest ih =>
    intro n
    obtain ⟨doc, outcome⟩ := q
    apply dividerCaptionsOk_cons
    · intro a b cap hkind
      simp only [addDividerPage] at hkind
      cases hkind
      rfl
    · apply dividerCaptionsOk_append
      · exact dividerCaptionsOk_of_no_divider _ _ (processDoc_no_divider doc outcome)
      · rw [processDoc_length]
        exact ih (n + 1 + pagesContributed outcome)

lemma copyLoop_getElem? (documentName : String) (fails : List Bool) :
    ∀ j i, (copyLoop documentName j fails)[i]?
      = (fails[i]?).map (fun (fail : Bool) =>
          if fail then
            addErrorPage documentName ("Page " ++ toString (j + i + 1) ++ " could not be processed")
          else
            { kind := PageKind.content documentName (j + i), footer := [] }) := by
  induction fails with
  | nil => intro j i; rfl
  | cons f rest ih =>
    intro j i
    cases i with
    | zero => simp [copyLoop]
    | succ i =>
      have h1 : j + 1 + i = j + (i + 1) := by omega
      simp only [copyLoop, List.getElem?_cons_succ, ih (j + 1) i, h1]

lemma hexDigitChar_ne_percent : ∀ m, m < 16 → hexDigitChar m ≠ '%' := by decide

set_option maxRecDepth 8192 in
lemma hexDigitChar_pair_eq (b : Nat) (hb : b < 256)
    (h2 : hexDigitChar (b / 16) = '2') (hF : hexDigitChar (b % 16) = 'F') : b = 47 := by
  revert h2 hF
  revert hb
  revert b
  decide

lemma char_toNat_lt (c : Char) : c.toNat < 1114112 := by
  have h : c.val.toNat < 55296 ∨ (57343 < c.val.toNat ∧ c.val.toNat < 1114112) := c.valid
  have h2 : c.toNat = c.val.toNat := rfl
  omega

lemma char_eq_slash_of_toNat (c : Char) (h : c.toNat = 47) : c = '/' :=
  Char.eq_of_val_eq (UInt32.ext h)

lemma utf8Bytes_facts (c : Char) (hc : c ≠ '/') :
    ∀ b ∈ utf8Bytes c, b < 256 ∧ b ≠ 47 := by
  intro b hb
  have hlt := char_toNat_lt c
  have hslash : c.toNat ≠ 47 := fun h => hc (char_eq_slash_of_toNat c h)
  simp only [utf8Bytes] at hb
  split at hb
  · simp only [List.mem_singleton] at hb
    omega
  · split at hb
    · simp only [List.mem_cons, List.not_mem_nil, or_false] at hb
      rcases hb with rfl | rfl <;> omega
    · split at hb
      · simp only [List.mem_cons, List.not_mem_nil, or_false] at hb
        rcases hb with rfl | rfl | rfl <;> omega
      · simp only [List.mem_cons, List.not_mem_nil, or_false] at hb
        rcases hb with rfl | rfl | rfl | rfl <;> omega

lemma replacePercent2F_cons_ne_percent (c : Char) (hc : c ≠ '%') (t : List Char) :
    replacePercent2F (c :: t) = c :: replacePercent2F t := by
  rw [replacePercent2F.eq_def]
  split
  · rename_i heq
    injection heq with h1 _
    exact absurd h1 hc
  · rename_i heq
    injection heq with h1 h2
    subst h1
    subst h2
    rfl
  · rename_i heq
    simp at heq

lemma replacePercent2F_triple (b : Nat) (hb256 : b < 256) (hb : b ≠ 47) (t : List Char) :
    replacePercent2F ('%' :: hexDigitChar (b / 16) :: hexDigitChar (b % 16) :: t)
      = '%' :: hexDigitChar (b / 16) :: hexDigitChar (b % 16) :: replacePercent2F t := by
  have hd1 : hexDigitChar (b / 16) ≠ '%' := hexDigitChar_ne_percent _ (by omega)
  have hd2 : hexDigitChar (b % 16) ≠ '%' := hexDigitChar_ne_percent _ (by omega)
  rw [replacePercent2F.eq_def]
  split
  · rename_i heq
    injection heq with _ h1
    injection h1 with h2 h3
    injection h3 with h4 _
    exact absurd (hexDigitChar_pair_eq b hb256 h2 h4) hb
  · rename_i heq
    injection heq with h1 h2
    subst h1
    subst h2
    rw [replacePercent2F_cons_ne_percent _ hd1, replacePercent2F_cons_ne_percent _ hd2]
  · rename_i heq
    simp at heq

lemma replacePercent2F_flatMap_percentByte (bs : List Nat)
    (h : ∀ b ∈ bs, b < 256 ∧ b ≠ 47) (t : List Char) :
    replacePercent2F (bs.flatMap percentByte ++ t)
      = bs.flatMap percentByte ++ replacePercent2F t := by
  induction bs with
  | nil => simp
  | cons b bs ih =>
    have hb := h b (List.mem_cons_self b bs)
    have hbs : ∀ x ∈ bs, x < 256 ∧ x ≠ 47 := fun x hx => h x (List.mem_cons_of_mem b hx)
    simp only [List.flatMap_cons, List.append_assoc]
    have hpb : percentByte b = '%' :: hexDigitChar (b / 16) :: hexDigitChar (b % 16) :: [] := rfl
    rw [hpb]
    simp only [List.cons_append, List.nil_append]
    rw [replacePercent2F_triple b hb.1 hb.2, ih hbs]

lemma replacePercent2F_encodeChar (c : Char) (hc : c ≠ '/') (t : List Char) :
    replacePercent2F (encodeChar c ++ t) = encodeChar c ++ replacePercent2F t := by
  unfold encodeChar
  by_cases h : jsUnreserved c
  · have hpc : c ≠ '%' := by
      intro heq
      subst heq
      simp [jsUnreserved] at h
    simp only [h, if_pos, List.cons_append, List.nil_append]
    exact replacePercent2F_cons_ne_percent c hpc t
  · simp only [h, if_neg, if_false]
    exact replacePercent2F_flatMap_percentByte (utf8Bytes c) (utf8Bytes_facts c hc) t

lemma encodeChar_slash : encodeChar '/' = ['%', '2', 'F'] := by decide

lemma splitOnSlash_ne_nil (s : List Char) : splitOnSlash s ≠ [] := by
  cases s with
  | nil => simp [splitOnSlash]
  | cons c rest =>
    unfold splitOnSlash
    by_cases h : c = '/'
    · simp [h]
    · simp only [h, if_neg, if_false]
      split <;> simp

lemma replacePercent2F_encode_eq_join_split (s : List Char) :
    replacePercent2F (encodeURIComponentList s)
      = joinSlash ((splitOnSlash s).map encodeURIComponentList) := by
  induction s with
  | nil => rfl
  | cons c s ih =>
    by_cases hc : c = '/'
    · subst hc
      have henc : encodeURIComponentList ('/' :: s)
          = '%' :: '2' :: 'F' :: encodeURIComponentList s := by
        simp [encodeURIComponentList, List.flatMap_cons, encodeChar_slash]
      have hsplit : splitOnSlash ('/' :: s) = [] :: splitOnSlash s := by
        simp [splitOnSlash]
      rw [henc, hsplit]
      have hrepl : replacePercent2F ('%' :: '2' :: 'F' :: encodeURIComponentList s)
          = '/' :: replacePercent2F (encodeURIComponentList s) := rfl
      rw [hrepl, ih]
      obtain ⟨x, xs, hx⟩ : ∃ x xs, splitOnSlash s = x :: xs := by
        cases hsp : splitOnSlash s with
        | nil => exact absurd hsp (splitOnSlash_ne_nil s)
        | cons x xs => exact ⟨x, xs, rfl⟩
      rw [hx]
      simp [joinSlash, encodeURIComponentList]
    · have henc : encodeURIComponentList (c :: s)
          = encodeChar c ++ encodeURIComponentList s := by
        simp [encodeURIComponentList, List.flatMap_cons]
      rw [henc, replacePercent2F_encodeChar c hc, ih]
      obtain ⟨x, xs, hx⟩ : ∃ x xs, splitOnSlash s = x :: xs := by
        cases hsp : splitOnSlash s with
        | nil => exact absurd hsp (splitOnSlash_ne_nil s)
        | cons x xs => exact ⟨x, xs, rfl⟩
      have hsplit : splitOnSlash (c :: s) = (c :: x) :: xs := by
        unfold splitOnSlash
        simp only [hc, if_neg, if_false]
        rw [hx]
      rw [hsplit, hx]
      cases xs with
      | nil =>
        simp [joinSlash, encodeURIComponentList, List.flatMap_cons]
      | cons y ys =>
        simp [joinSlash, encodeURIComponentList, List.flatMap_cons, List.append_assoc]

/-- Concrete status flags used by the concrete example runs. -/
def exampleStatus : StatusFlags :=
  { forReview := true, forApproval := false, forRecord := false, forInformationOnly := false }

/-- Concrete submittal-type flags used by the concrete example runs. -/
def exampleSubmittalType : SubmittalTypeFlags :=
  { tds := true, threePartSpecs := false, testReportIccEsr5194 := false,
    testReportIccEsl1645 := false, fireAssembly := false, fireAssembly01 := false,
    fireAssembly02 := false, fireAssembly03 := false, msds := false, leedGuide := false,
    installationGuide := false, warranty := false, samples := false, other := false,
    otherText := none }

/-- Concrete project data used by the concrete example runs. -/
def exampleProjectData : ProjectData :=
  { projectName := "Acme / Tower #3", submittedTo := "Owner", preparedBy := "Jo",
    date := "2025-10-01", projectNumber := none, emailAddress := "jo@example.com",
    phoneNumber := "555-0100", product := "3/4-in (20mm)",
    status := exampleStatus, submittalType := exampleSubmittalType }

/-- First concrete document reference of the example runs. -/
def exampleDoc1 : DocumentRequest :=
  { id := "1", name := "Doc 1", url := "a.pdf", type := "TDS" }

/-- Second concrete document reference of the example runs. -/
def exampleDoc2 : DocumentRequest :=
  { id := "2", name := "Doc 2", url := "b.pdf", type := "MSDS" }

/-- C1: for every project data and every ordered list of document references
with their outcomes, the final packet page count is 1 (cover) plus, per
document, one divider page plus the pages that document contributes: one
error page when its fetch fails or its bytes fail to parse, and one page
per source page (copied or substituted) when it loads. -/
theorem packet_page_count (pd : ProjectData) (docs : List (DocumentRequest × DocOutcome)) :
    (generatePacket pd docs).length
      = 1 + (docs.map (fun p => 1 + pagesContributed p.2)).sum := by
  simp only [generatePacket, addPageNumbers, numberFrom_length, List.length_cons,
    processDocuments_length]
  omega

/-- C2: for a successfully loaded source document, page copying is isolated
per page: position `i` of the contributed pages is the copied content page
when the copy succeeds and exactly one error page naming position `i + 1`
and the source document when it fails, and processing continues with the
remaining pages and the remaining documents. -/
theorem per_page_copy_isolation (doc : DocumentRequest) (fails : List Bool)
    (rest : List (DocumentRequest × DocOutcome)) (n : Nat) :
    (processDoc doc (DocOutcome.loaded fails)).length = fails.length ∧
    (∀ i, (processDoc doc (DocOutcome.loaded fails))[i]?
        = (fails[i]?).map (fun (fail : Bool) =>
            if fail then
              addErrorPage doc.name ("Page " ++ toString (i + 1) ++ " could not be processed")
            else
              { kind := PageKind.content doc.name i, footer := [] })) ∧
    processDocuments ((doc, DocOutcome.loaded fails) :: rest) n
      = addDividerPage doc.name doc.type n
          :: (processDoc doc (DocOutcome.loaded fails)
            ++ processDocuments rest (n + 1 + fails.length)) := by
  refine ⟨processDoc_length doc (DocOutcome.loaded fails), ?_, ?_⟩
  · intro i
    have h := copyLoop_getElem? doc.name fails 0 i
    simpa using h
  · simp only [processDocuments, processDoc_length, pagesContributed]

/-- C3: the output page sequence is the cover page first, then for each
document in exactly the caller-supplied input order its divider page
immediately followed by that document's content or error pages; in the
claim's concrete instance (first document fails to fetch, second loads
with two pages) the order is cover, divider-1, error-1, divider-2,
content-2a, content-2b. -/
theorem packet_ordering (pd : ProjectData) (docs : List (DocumentRequest × DocOutcome)) :
    (generatePacket pd docs).map tagOf
      = PageTag.cover
          :: (docs.map (fun p => PageTag.divider p.1.name p.1.type
              :: (processDoc p.1 p.2).map tagOf)).flatten ∧
    (generatePacket exampleProjectData
        [(exampleDoc1, DocOutcome.fetchFail), (exampleDoc2, DocOutcome.loaded [false, false])]).map tagOf
      = [PageTag.cover, PageTag.divider "Doc 1" "TDS",
         PageTag.error "Doc 1" "Document could not be loaded",
         PageTag.divider "Doc 2" "MSDS",
         PageTag.content "Doc 2" 0, PageTag.content "Doc 2" 1] := by
  constructor
  · simp only [generatePacket, addPageNumbers, numberFrom_map_tagOf, List.map_cons,
      processDocuments_map_tagOf, addCoverPage, tagOf]
  · decide

/-- C4: the numbering pass runs exactly once after all pages have been
appended, and gives every page of the final sequence a footer equal to its
1-based position (the footer list of every page is the one-element list of
its position, so a single number was drawn); with zero document references
the output is the single cover page numbered 1. -/
theorem page_numbering (pd : ProjectData) (docs : List (DocumentRequest × DocOutcome)) :
    (generatePacket pd docs).map Page.footer
      = (List.range (generatePacket pd docs).length).map (fun i => [toString (i + 1)]) ∧
    (generatePacket pd []).map (fun p => (p.kind, p.footer)) = [(PageKind.cover, ["1"])] := by
  constructor
  · have hempty : ∀ p ∈ addCoverPage pd :: processDocuments docs 2, p.footer = [] := by
      intro p hp
      rcases List.mem_cons.mp hp with rfl | h
      · rfl
      · exact processDocuments_footer docs 2 p h
    have h := numberFrom_map_footer (addCoverPage pd :: processDocuments docs 2) 1 hempty
    simp only [generatePacket, addPageNumbers]
    rw [h, numberFrom_length]
    simp [Nat.add_comm]
  · rfl

/-- C5 counterexample: in a concrete run whose single document's bytes
fail to parse, the substituted error page's message is
`Document processing failed`, not the `Document could not be loaded` that
the claim asserts (that message is reserved for a failed fetch). -/
theorem parse_failure_message_counterexample :
    (generatePacket exampleProjectData [(exampleDoc1, DocOutcome.parseFail)]).map Page.kind
        = [PageKind.cover, PageKind.divider "Doc 1" "TDS" 2,
           PageKind.error "Doc 1" "Document processing failed"] ∧
    ("Document processing failed" : String) ≠ "Document could not be loaded" :=
  ⟨by decide, by decide⟩

/-- C5 amended: when fetched bytes cannot be parsed, the failure is caught
by the per-document handler and exactly one error page is substituted for
the entire document with message `Document processing failed`; the message
`Document could not be loaded` is the one rendered when the fetch itself
returns unavailable. -/
theorem parse_failure_message (pd : ProjectData) (doc : DocumentRequest)
    (rest : List (DocumentRequest × DocOutcome)) :
    ((generatePacket pd ((doc, DocOutcome.parseFail) :: rest))[2]?).map Page.kind
        = some (PageKind.error doc.name "Document processing failed") ∧
    ((generatePacket pd ((doc, DocOutcome.fetchFail) :: rest))[2]?).map Page.kind
        = some (PageKind.error doc.name "Document could not be loaded") ∧
    (generatePacket pd [(doc, DocOutcome.parseFail)]).length = 3 ∧
    (generatePacket pd [(doc, DocOutcome.fetchFail)]).length = 3 := by
  refine ⟨?_, ?_, ?_, ?_⟩
  · simp [generatePacket, addPageNumbers, numberFrom_getElem?, processDocuments,
      processDoc, addErrorPage, drawPageNumber]
  · simp [generatePacket, addPageNumbers, numberFrom_getElem?, processDocuments,
      processDoc, addErrorPage, drawPageNumber]
  · simp [generatePacket, addPageNumbers, numberFrom_length, processDocuments_length,
      pagesContributed]
  · simp [generatePacket, addPageNumbers, numberFrom_length, processDocuments_length,
      pagesContributed]

/-- C6: for every network oracle and retrieval address, the fetcher
returns either the body bytes or the explicit unavailable result `none`
(it is a total function, so no failure reaches the caller), and a
non-success response status and a thrown transport error both map
uniformly to the same `none`. -/
theorem fetcher_totality (net : String → NetResult) (url : String) :
    (∀ msg, net (resolveUrl url) = NetResult.thrown msg → fetchPDF net url = none) ∧
    (∀ status body, net (resolveUrl url) = NetResult.response status body →
      responseOk status = false → fetchPDF net url = none) ∧
    (∀ status body, net (resolveUrl url) = NetResult.response status body →
      responseOk status = true → fetchPDF net url = some body) := by
  refine ⟨?_, ?_, ?_⟩
  · intro msg h
    simp [fetchPDF, h]
  · intro status body h hok
    simp [fetchPDF, h, hok]
  · intro status body h hok
    simp [fetchPDF, h, hok]

/-- Witness for C6: a thrown transport error, a 404 status and a 200
status at a concrete address give `none`, `none` and the body bytes. -/
theorem fetcher_totality_witness :
    fetchPDF (fun _ => NetResult.thrown "network down") "doc.pdf" = none ∧
    fetchPDF (fun _ => NetResult.response 404 []) "doc.pdf" = none ∧
    fetchPDF (fun _ => NetResult.response 200 [37]) "doc.pdf" = some [37] :=
  ⟨(fetcher_totality (fun _ => NetResult.thrown "network down") "doc.pdf").1 "network down" rfl,
   (fetcher_totality (fun _ => NetResult.response 404 []) "doc.pdf").2.1 404 [] rfl (by decide),
   (fetcher_totality (fun _ => NetResult.response 200 [37]) "doc.pdf").2.2 200 [37] rfl (by decide)⟩

/-- C7: for every retrieval address, the resolution the code performs
(`encodeURIComponent` on the whole path followed by restoring the escaped
`/` separators) equals the spec's description: a fully-qualified address
is used verbatim, otherwise the leading separator is stripped, each path
segment is percent-encoded individually with `/` separators preserved,
and the result is appended to the fixed content origin. -/
theorem url_resolution (url : String) : resolveUrl url = specResolveUrl url := by
  unfold resolveUrl specResolveUrl
  by_cases h : url.startsWith "http"
  · simp [h]
  · simp only [h, if_false, Bool.false_eq_true]
    rw [replacePercent2F_encode_eq_join_split]

/-- C8 counterexample: the project name `Acme / Tower #3` does not yield
the claimed filename `Acme__Tower__3_Packet`: the three characters of
` / ` each become an underscore and the code appends `_Packet.pdf`, so
the actual filename is `Acme___Tower__3_Packet.pdf`. -/
theorem filename_counterexample :
    packetFilename "Acme / Tower #3" ≠ "Acme__Tower__3_Packet" ∧
    packetFilename "Acme / Tower #3" = "Acme___Tower__3_Packet.pdf" :=
  ⟨by decide, by decide⟩

/-- C8 amended: the output filename replaces each non-alphanumeric
character of the project name one-for-one with an underscore and appends
`_Packet.pdf`; in particular `Acme / Tower #3` (whose ` / ` is three
characters) yields `Acme___Tower__3_Packet.pdf`. -/
theorem filename_rule (projectName : String) :
    (packetFilename projectName).toList
        = projectName.toList.map (fun c => if c.isAlphanum then c else '_')
          ++ "_Packet.pdf".toList ∧
    packetFilename "Acme / Tower #3" = "Acme___Tower__3_Packet.pdf" := by
  constructor
  · simp [packetFilename, String.toList]
  · decide

/-- C9: the numbering pass is idempotent in the rendered numbers: running
it twice renders at every page's footer position the same number as
running it once, namely the page's 1-based final position, not an
incremented value (each draw writes the absolute position). -/
theorem numbering_idempotent (ps : List Page) :
    (addPageNumbers (addPageNumbers ps)).map renderedFooter
        = (addPageNumbers ps).map renderedFooter ∧
    (addPageNumbers (addPageNumbers ps)).map renderedFooter
        = (List.range ps.length).map (fun i => some (toString (i + 1))) := by
  have h1 := numberFrom_map_renderedFooter ps 1
  have h2 := numberFrom_map_renderedFooter (numberFrom 1 ps) 1
  have hlen : (numberFrom 1 ps).length = ps.length := numberFrom_length ps 1
  constructor
  · simp only [addPageNumbers]
    rw [h2, h1, hlen]
  · simp only [addPageNumbers]
    rw [h2, hlen]
    simp [Nat.add_comm]

/-- C10: the caption a divider page is created with equals that page's
final 1-based position: the running counter equals pages-appended-so-far
plus one whenever a divider is created, and the numbering pass numbers by
position, so the caption agrees with the authoritative footer number. -/
theorem divider_caption_matches_position (pd : ProjectData)
    (docs : List (DocumentRequest × DocOutcome)) (i : Nat) (pg : Page)
    (a b : String) (cap : Nat)
    (hget : (generatePacket pd docs)[i]? = some pg)
    (hkind : pg.kind = PageKind.divider a b cap) : cap = i + 1 := by
  have hnum := numberFrom_getElem? (addCoverPage pd :: processDocuments docs 2) 1 i
  simp only [generatePacket, addPageNumbers] at hget
  rw [hnum] at hget
  cases hbase : (addCoverPage pd :: processDocuments docs 2)[i]? with
  | none =>
    rw [hbase] at hget
    exact Option.noConfusion hget
  | some pg0 =>
    rw [hbase] at hget
    have hpg : pg = drawPageNumber pg0 (1 + i) := by
      simpa using hget.symm
    have hkind0 : pg0.kind = PageKind.divider a b cap := by
      rw [hpg] at hkind
      exact hkind
    have hcover : ∀ a' b' cap', (addCoverPage pd).kind = PageKind.divider a' b' cap' → cap' = 1 := by
      intro a' b' cap' hk
      simp [addCoverPage] at hk
    have hcap := dividerCaptionsOk_cons 1 (addCoverPage pd) (processDocuments docs 2)
      hcover (processDocuments_captions docs 2) i pg0 a b cap hbase hkind0
    omega

/-- Witness for C10: in a concrete one-document run, the divider page at
index 1 carries caption 2, its 1-based position. -/
theorem divider_caption_matches_position_witness : (2 : Nat) = 1 + 1 :=
  divider_caption_matches_position exampleProjectData [(exampleDoc1, DocOutcome.fetchFail)] 1
    { kind := PageKind.divider "Doc 1" "TDS" 2, footer := ["2"] } "Doc 1" "TDS" 2
    (by decide) rfl

end PDFPacket
